import Mathlib

/-!
Shallow embedding of the sys-tui terminal dashboard (src/main.rs) and proofs
about the properties its specification states.

The embedding follows the source: crossterm key events, the sysinfo cpu list,
the `App` state with its `exit` flag, the event/render loop of `App::run`, the
ratatui layout calls of `App::render_frame`, the `to_gigabytes` conversion, and
the control flow of `main`.  Machine floating point (`f32`) is modelled in ℚ
with explicit IEEE-754 binary32 round-to-nearest-even; fallible operations
(`try_into().unwrap()`, division) are modelled with `Option`.
-/

set_option linter.unusedVariables false
set_option maxRecDepth 8192

namespace SysTui

/-- Kind of a keyboard event as delivered by crossterm (`KeyEventKind`):
newly pressed, released, or auto-repeated. -/
inductive KeyEventKind
  | Press
  | Release
  | Repeat
deriving DecidableEq

/-- Key code of a keyboard event (crossterm `KeyCode`); the program only ever
inspects `Char` codes, all other codes are collapsed into `Other`. -/
inductive KeyCode
  | Char (c : Char)
  | Other
deriving DecidableEq

/-- Modifier bitflags of a key event (crossterm `KeyModifiers`); the program
never reads them, they are carried to show the quit test ignores them. -/
structure KeyModifiers where
  bits : ℕ
deriving DecidableEq

/-- A crossterm `KeyEvent`: code, modifiers and kind (the `state` field of the
Rust struct is never read by the program and is omitted). -/
structure KeyEvent where
  code : KeyCode
  modifiers : KeyModifiers
  kind : KeyEventKind
deriving DecidableEq

/-- A crossterm `Event`.  `Key` and `Resize` are kept; the remaining variants
(mouse, paste, focus) are collapsed into `Other`, since `handle_events`
treats everything but `Key` with a single wildcard arm. -/
inductive Event
  | Key (key_event : KeyEvent)
  | Resize (w h : ℕ)
  | Other
deriving DecidableEq

/-- A sysinfo `Cpu`: the name and the current utilization returned by
`cpu_usage()` (an `f32` percentage, carried here as an exact rational). -/
structure Cpu where
  name : String
  cpu_usage : ℚ
deriving DecidableEq

/-- The `App` struct of src/main.rs (lines 32-38): host name, the unit-like
`Clock` widget, the borrowed sysinfo `System` handle represented by the cpu
list it exposes through `cpus()`, and the `exit` flag. -/
structure App where
  name : String
  clock : Unit
  cpus : List Cpu
  exit : Bool
deriving DecidableEq

/-- `App::exit` (src lines 122-124): sets the `exit` flag.  Named `exitSelf`
because the flag itself occupies the name `exit`. -/
def App.exitSelf (a : App) : App := { a with exit := true }

/-- `App::handle_key_event` (src lines 116-120): on key code `Char('q')` call
`self.exit()`; every other code leaves the state untouched.  Modifiers and
kind are not inspected here. -/
def App.handleKeyEvent (a : App) (key_event : KeyEvent) : App :=
  if key_event.code = KeyCode.Char 'q' then a.exitSelf else a

/-- `App::handle_events` (src lines 104-114) applied to the event returned by
`event::read()`: key events of `Press` kind are dispatched to
`handle_key_event`, everything else falls through the wildcard arm. -/
def App.handleEvents (a : App) (ev : Event) : App :=
  match ev with
  | Event.Key key_event =>
      if key_event.kind = KeyEventKind.Press then a.handleKeyEvent key_event else a
  | _ => a

/-- The quit condition as the specification words it: a key event of press
kind whose code is the character `q`. -/
def isQuitPress : Event → Bool
  | Event.Key k => k.kind == KeyEventKind.Press && k.code == KeyCode.Char 'q'
  | _ => false

/-- A ratatui `Rect` (x, y, width, height, all `u16`; modelled in ℕ). -/
structure Rect where
  x : ℕ
  y : ℕ
  width : ℕ
  height : ℕ
deriving DecidableEq

/-- Model of the `outer_layout` split of `render_frame` (src lines 70-73):
ratatui `Layout::split` of the frame area with vertical constraints
`[Percentage(10), Percentage(90)]`.  A percentage resolves to the floor of
`length * p / 100`; the trailing element absorbs the remaining length
(the legacy flex of ratatui puts excess space into the last element). -/
def outerLayout (area : Rect) : Rect × Rect :=
  let h1 := area.height * 10 / 100
  (⟨area.x, area.y, area.width, h1⟩,
   ⟨area.x, area.y + h1, area.width, area.height - h1⟩)

/-- Widths assigned by ratatui `Layout::split` to a list of
`Percentage` constraints over a band of width `w`: each non-final constraint
gets the floor of `w * p / 100`, and the final element absorbs all remaining
width (legacy flex: excess space goes into the last element). -/
def legacyWidths (w : ℕ) (ps : List ℕ) : List ℕ :=
  match ps with
  | [] => []
  | _ :: _ =>
    let base := ps.map fun p => w * p / 100
    base.dropLast ++ [w - base.dropLast.sum]

/-- Lay a list of widths out left to right starting at `x`, all sharing the
`y` and `height` of the band being split. -/
def rectsFromWidths (x y height : ℕ) : List ℕ → List Rect
  | [] => []
  | w :: ws => ⟨x, y, w, height⟩ :: rectsFromWidths (x + w) y height ws

/-- Model of the `inner_layout` split of `render_frame` (src lines 75-78):
horizontal `Layout::split` applied — as in the source — to the FULL frame
area `frame.size()`, not to the body band `outer_layout[1]`, with one
`Percentage(100 / n)` constraint per cpu. -/
def innerLayout (area : Rect) (n : ℕ) : List Rect :=
  rectsFromWidths area.x area.y area.height
    (legacyWidths area.width (List.replicate n (100 / n)))

/-- The column-width rule stated by the specification: base width `w / n` per
column, with the indivisible remainder `w % n` distributed to the trailing
columns, one extra unit each. -/
def claimColWidths (w n : ℕ) : List ℕ :=
  List.replicate (n - w % n) (w / n) ++ List.replicate (w % n) (w / n + 1)

/-- Two rectangles share at least one cell. -/
def rectsOverlap (r s : Rect) : Prop :=
  r.x < s.x + s.width ∧ s.x < r.x + r.width ∧
  r.y < s.y + s.height ∧ s.y < r.y + r.height

instance (r s : Rect) : Decidable (rectsOverlap r s) := by
  unfold rectsOverlap; infer_instance

/-- `inner` lies entirely inside `outer`. -/
def rectWithin (inner outer : Rect) : Prop :=
  outer.x ≤ inner.x ∧ inner.x + inner.width ≤ outer.x + outer.width ∧
  outer.y ≤ inner.y ∧ inner.y + inner.height ≤ outer.y + outer.height

instance (r s : Rect) : Decidable (rectWithin r s) := by
  unfold rectWithin; infer_instance

/-- Division with the zero-denominator case made explicit, to model that Rust
`100 / cpus.len()` panics when the denominator is zero. -/
def checkedDiv (a b : ℕ) : Option ℕ := if b = 0 then none else some (a / b)

/-- Rust `usize::try_into::<u16>()`: succeeds exactly when the value fits in
16 bits; `.unwrap()` of a failure is a panic, modelled by `none`. -/
def tryIntoU16 (n : ℕ) : Option ℕ := if n < 65536 then some n else none

/-- The constraint-building loop of `render_frame` (src lines 65-68): for each
cpu, compute `col_size = 100 / cpus.len()` and push
`Constraint::Percentage(col_size.try_into().unwrap())`.  Both the division
and the unwrap are modelled as `Option`; `none` means a panic would occur. -/
def buildCols (cpus : List Cpu) : Option (List ℕ) :=
  cpus.mapM fun _ => (checkedDiv 100 cpus.length).bind tryIntoU16

/-- A widget drawn into the frame: the clock paragraph of `render_clock`, or
the bordered cpu cell of `render_cpu` labelled with the cpu name and its
utilization (rendered as a string at display time). -/
inductive DrawCmd
  | Clock (area : Rect)
  | CpuCell (label : String) (usage : ℚ) (area : Rect)
deriving DecidableEq

/-- `App::render_cpu` (src lines 87-92): a bordered block titled with the cpu
name containing the utilization paragraph, drawn into `area`.  This function
is dead code in the source: its only call site (lines 82-84) is commented
out. -/
def render_cpu (cpu : Cpu) (area : Rect) : DrawCmd :=
  DrawCmd.CpuCell cpu.name cpu.cpu_usage area

/-- Whether a drawn widget is a cpu cell. -/
def isCpuCell : DrawCmd → Bool
  | DrawCmd.CpuCell _ _ _ => true
  | _ => false

/-- The widgets `render_frame` actually draws (src lines 58-85): after
computing the layouts it renders only the clock into `outer_layout[0]`
(via `render_clock`, whose time string is wall-clock state irrelevant here
and is abstracted into the `Clock` command).  The per-cpu rendering loop
(src lines 82-84) is commented out in the source, so no cpu cell is ever
drawn, whatever the cpu list. -/
def render_frame_draws (cpus : List Cpu) (frameArea : Rect) : List DrawCmd :=
  [DrawCmd.Clock (outerLayout frameArea).1]

/-- Observable actions of one pass of the event loop: a sysinfo
`refresh_cpu_all` call, a terminal draw, and a (blocking) `event::read`. -/
inductive Action
  | Refresh
  | Draw
  | ReadEvent
deriving DecidableEq

/-- Oracle input for one loop iteration: the elapsed milliseconds reported by
`last_update.elapsed()` during the iteration, and the event returned by the
blocking `event::read()` call inside `handle_events`. -/
structure StepIn where
  elapsedMs : ℕ
  ev : Event
deriving DecidableEq

/-- One pass of the `while !self.exit` body of `App::run` (src lines 45-54):
`terminal.draw(render_frame)` — which refreshes the cpu statistics, since
`render_frame` calls `refresh_cpu_all` (line 63), then draws; if the elapsed
time reached the tick interval `Duration::from_secs(1)` (1000 ms), the timer
is reset and `terminal.draw(render_frame)` runs a second time; finally
`handle_events` blocks on `event::read()` and handles the one event it
returns. -/
def App.runStep (a : App) (i : StepIn) : App × List Action :=
  let drawActs := [Action.Refresh, Action.Draw]
  let tickActs := if 1000 ≤ i.elapsedMs then [Action.Refresh, Action.Draw] else []
  (a.handleEvents i.ev, drawActs ++ tickActs ++ [Action.ReadEvent])

/-- `App::run` (src lines 42-56) over a finite oracle of iteration inputs:
the loop guard reads `exit` at the top of each pass; each pass consumes
exactly one input (its event is the one `event::read()` blocks for).  An
exhausted oracle means no further event ever arrives: the loop would then sit
in `event::read()` forever, so no further actions are observable. -/
def App.run (a : App) : List StepIn → App × List Action
  | [] => (a, [])
  | i :: rest =>
    if a.exit then (a, [])
    else
      let s := a.runStep i
      let r := App.run s.1 rest
      (r.1, s.2 ++ r.2)

/-- An io::Error value; its payload is irrelevant to the control flow. -/
structure IOError where
  msg : String
deriving DecidableEq

/-- Observable terminal-session actions of `main`. -/
inductive TermAction
  | EnterAltScreen
  | RunLoop
  | LeaveAltScreen
deriving DecidableEq

/-- Process exit status produced by the Rust runtime when `main` returns an
`io::Result`: `Ok` terminates with status 0, `Err` reports the error and
terminates with a non-zero status. -/
def exitCode : Except IOError Unit → ℕ
  | Except.ok _ => 0
  | Except.error _ => 1

/-- Modelled from the spec: the terminal-session module `tui` (declared as
`mod tui` at src/main.rs line 23) is not present under src.  Per the specification
contract for the Terminal Session, `tui::restore()` is the release operation that
leaves the alternate-screen raw mode; the spec gives `leave()` no failure
mode, so it is modelled as always succeeding, emitting the leave action. -/
def tui_restore : List TermAction × Except IOError Unit :=
  ([TermAction.LeaveAltScreen], Except.ok ())

/-- The control flow of `main` (src lines 131-146) after `System` setup,
parameterised by the outcome of `tui::init()` and by the trace and result of
`app.run(&mut terminal)`: `tui::init()?` returns early on setup failure
(nothing to restore); otherwise the run result is captured in `app_result`
without `?`, `tui::restore()?` runs unconditionally afterwards, and only then
is the captured `app_result` returned as the value of `main`. -/
def mainFn (initRes : Except IOError Unit) (runTrace : List TermAction)
    (runRes : Except IOError Unit) : List TermAction × Except IOError Unit :=
  match initRes with
  | Except.error e => ([], Except.error e)
  | Except.ok _ =>
    let t := [TermAction.EnterAltScreen] ++ runTrace
    match tui_restore with
    | (t2, Except.error e) => (t ++ t2, Except.error e)
    | (t2, Except.ok _) => (t ++ t2, runRes)

/-- Round a rational to an integer, to nearest with ties to even — the IEEE
rounding used both by Rust `u64 as f32` casts and by `f32` division. -/
def rne (x : ℚ) : ℤ :=
  if x - ⌊x⌋ < 1/2 then ⌊x⌋
  else if 1/2 < x - ⌊x⌋ then ⌊x⌋ + 1
  else if 2 ∣ ⌊x⌋ then ⌊x⌋ else ⌊x⌋ + 1

/-- IEEE-754 binary32 rounding of a real (rational) value: a 24-bit
significand, round to nearest, ties to even.  The grid step of a positive
value `q` is `2 ^ (⌊log₂ q⌋ - 23)`.  The subnormal and overflow thresholds
are never reached by the values arising in `to_gigabytes` on `u64` inputs
and are not modelled; negative inputs do not arise. -/
def f32round (q : ℚ) : ℚ :=
  if q ≤ 0 then 0
  else (rne (q / 2 ^ (Int.log 2 q - 23)) : ℚ) * 2 ^ (Int.log 2 q - 23)

/-- `to_gigabytes` (src lines 127-129): `((bytes as f32 / 1024.0) / 1024.0)
/ 1024.0`.  The cast rounds the integer to binary32, and each division is an
exact rational division followed by binary32 rounding. -/
def to_gigabytes (bytes : ℕ) : ℚ :=
  f32round (f32round (f32round (f32round (bytes : ℚ) / 1024) / 1024) / 1024)

end SysTui

namespace SysTui

/-- Claim C3: a key event quits exactly when it is a press of the character
`q`; every other event leaves the state unchanged. -/
theorem handleEvents_quit_iff (a : App) (ev : Event) (h : a.exit = false) :
    ((a.handleEvents ev).exit = true ↔ isQuitPress ev = true) ∧
    (isQuitPress ev = false → a.handleEvents ev = a) := by
  cases ev with
  | Key k =>
    by_cases hk : k.kind = KeyEventKind.Press
    · by_cases hc : k.code = KeyCode.Char 'q'
      · constructor
        · simp [App.handleEvents, App.handleKeyEvent, App.exitSelf, isQuitPress, hk, hc]
        · intro hq
          simp [isQuitPress, hk, hc] at hq
      · constructor
        · simp [App.handleEvents, App.handleKeyEvent, isQuitPress, hk, hc, h]
        · intro _
          simp [App.handleEvents, App.handleKeyEvent, hk, hc]
    · constructor
      · simp [App.handleEvents, isQuitPress, hk, h]
      · intro _
        simp [App.handleEvents, hk]
  | Resize w hgt =>
    exact ⟨by simp [App.handleEvents, isQuitPress, h], fun _ => by simp [App.handleEvents]⟩
  | Other =>
    exact ⟨by simp [App.handleEvents, isQuitPress, h], fun _ => by simp [App.handleEvents]⟩

theorem handleEvents_quit_iff_witness :
    (((App.mk "h" () [] false).handleEvents
        (Event.Key (KeyEvent.mk (KeyCode.Char 'q') (KeyModifiers.mk 0) KeyEventKind.Press))).exit = true ↔
      isQuitPress (Event.Key (KeyEvent.mk (KeyCode.Char 'q') (KeyModifiers.mk 0) KeyEventKind.Press)) = true) ∧
    (isQuitPress (Event.Key (KeyEvent.mk (KeyCode.Char 'q') (KeyModifiers.mk 0) KeyEventKind.Press)) = false →
      (App.mk "h" () [] false).handleEvents
        (Event.Key (KeyEvent.mk (KeyCode.Char 'q') (KeyModifiers.mk 0) KeyEventKind.Press)) = App.mk "h" () [] false) :=
  handleEvents_quit_iff (App.mk "h" () [] false)
    (Event.Key (KeyEvent.mk (KeyCode.Char 'q') (KeyModifiers.mk 0) KeyEventKind.Press)) rfl

end SysTui

namespace SysTui

theorem mapM_const {α : Type} (xs : List α) (c : ℕ) :
    xs.mapM (fun _ => (some c : Option ℕ)) = some (List.replicate xs.length c) := by
  induction xs with
  | nil => rfl
  | cons x xs ih =>
    rw [List.mapM_cons, ih]
    rfl

/-- Claim C9: the per-core percentage computation of render_frame is total:
the division only runs with a non-zero cpu count, each quotient is at most
100 and therefore fits in a u16, so the unwrap never panics; the constraint
list is one Percentage(100 / n) entry per cpu. -/
theorem buildCols_total (cpus : List Cpu) :
    buildCols cpus = some (List.replicate cpus.length (100 / cpus.length)) ∧
    100 / cpus.length ≤ 100 := by
  refine ⟨?_, Nat.div_le_self _ _⟩
  cases cpus with
  | nil => rfl
  | cons c cs =>
    have hlen : (c :: cs).length ≠ 0 := by simp
    have h1 : checkedDiv 100 (c :: cs).length = some (100 / (c :: cs).length) := by
      simp [checkedDiv, hlen]
    have hlt : 100 / (c :: cs).length < 65536 :=
      lt_of_le_of_lt (Nat.div_le_self _ _) (by norm_num)
    have h2 : tryIntoU16 (100 / (c :: cs).length) = some (100 / (c :: cs).length) := by
      unfold tryIntoU16
      exact if_pos hlt
    have hc : (checkedDiv 100 (c :: cs).length).bind tryIntoU16 =
        some (100 / (c :: cs).length) := by
      rw [h1, Option.some_bind, h2]
    unfold buildCols
    rw [show (fun _ : Cpu => (checkedDiv 100 (c :: cs).length).bind tryIntoU16) =
        (fun _ : Cpu => (some (100 / (c :: cs).length) : Option ℕ)) from funext fun _ => hc]
    exact mapM_const (c :: cs) _

/-- Claim C10: handle_key_event touches no field but `exit`; no operation
resets `exit` to false once true; and the run loop checks `exit` at the top
of each iteration, so once the flag is set the loop stops with no further
drawing. -/
theorem exit_monotone_isolated (a : App) (k : KeyEvent) (ev : Event) (i : StepIn)
    (inputs : List StepIn) :
    (a.handleKeyEvent k).name = a.name ∧
    (a.handleKeyEvent k).clock = a.clock ∧
    (a.handleKeyEvent k).cpus = a.cpus ∧
    (a.exit = true → (a.handleKeyEvent k).exit = true) ∧
    (a.exit = true → (a.handleEvents ev).exit = true) ∧
    (a.exit = true → ((a.runStep i).1).exit = true) ∧
    (a.exit = true → App.run a inputs = (a, [])) := by
  have hkey : ∀ (b : App) (ke : KeyEvent), (b.handleKeyEvent ke).name = b.name ∧
      (b.handleKeyEvent ke).clock = b.clock ∧ (b.handleKeyEvent ke).cpus = b.cpus ∧
      (b.exit = true → (b.handleKeyEvent ke).exit = true) := by
    intro b ke
    unfold App.handleKeyEvent App.exitSelf
    split_ifs <;> simp
  have hev : ∀ e : Event, a.exit = true → (a.handleEvents e).exit = true := by
    intro e hx
    cases e with
    | Key ke =>
      show (if ke.kind = KeyEventKind.Press then a.handleKeyEvent ke else a).exit = true
      split_ifs with hkk
      · exact (hkey a ke).2.2.2 hx
      · exact hx
    | Resize w hgt => exact hx
    | Other => exact hx
  refine ⟨(hkey a k).1, (hkey a k).2.1, (hkey a k).2.2.1, (hkey a k).2.2.2, hev ev, ?_, ?_⟩
  · intro hx
    exact hev i.ev hx
  · intro hx
    cases inputs with
    | nil => rfl
    | cons j rest => simp [App.run, hx]

theorem exit_monotone_isolated_witness :
    ((App.mk "h" () [] true).handleKeyEvent
        (KeyEvent.mk (KeyCode.Char 'q') (KeyModifiers.mk 0) KeyEventKind.Press)).name =
      (App.mk "h" () [] true).name ∧
    ((App.mk "h" () [] true).handleEvents Event.Other).exit = true ∧
    App.run (App.mk "h" () [] true) [StepIn.mk 0 Event.Other] = (App.mk "h" () [] true, []) := by
  have h := exit_monotone_isolated (App.mk "h" () [] true)
    (KeyEvent.mk (KeyCode.Char 'q') (KeyModifiers.mk 0) KeyEventKind.Press)
    Event.Other (StepIn.mk 0 Event.Other) [StepIn.mk 0 Event.Other]
  exact ⟨h.1, h.2.2.2.2.1 rfl, h.2.2.2.2.2.2 rfl⟩

/-- Claim C8: once the terminal session is acquired, main performs the
terminal restore after the event loop returns — on the success path and on
the error path alike — as the final session action before the captured run
result is returned, and the process status is zero exactly on a clean
quit. -/
theorem main_restores_and_reports (runTrace : List TermAction)
    (runRes : Except IOError Unit) :
    (mainFn (Except.ok ()) runTrace runRes).2 = runRes ∧
    (mainFn (Except.ok ()) runTrace runRes).1.getLast? = some TermAction.LeaveAltScreen ∧
    (exitCode (mainFn (Except.ok ()) runTrace runRes).2 = 0 ↔ runRes = Except.ok ()) := by
  refine ⟨rfl, ?_, ?_⟩
  · show (([TermAction.EnterAltScreen] ++ runTrace) ++ [TermAction.LeaveAltScreen]).getLast? =
      some TermAction.LeaveAltScreen
    exact List.getLast?_concat _
  · show exitCode runRes = 0 ↔ runRes = Except.ok ()
    cases runRes with
    | ok u => simp [exitCode]
    | error e => simp [exitCode]

end SysTui

namespace SysTui

/-- Claim C1 fails on the code: render_frame gives every column the same
truncated share Percentage(100 / n).  For 6 cores over a width-100 band the
constraints are six Percentage(16) summing to 96%, the resolved widths are
[16, 16, 16, 16, 16, 20] (the library puts all excess into the last
element), not the one-extra-unit-per-trailing-column rule of the spec,
[16, 16, 17, 17, 17, 17]; and for 101 cores the share is Percentage(0),
yielding zero-width columns. -/
theorem col_percentages_drop_remainder :
    buildCols (List.replicate 6 (Cpu.mk "c" 0)) = some [16, 16, 16, 16, 16, 16] ∧
    ([16, 16, 16, 16, 16, 16] : List ℕ).sum = 96 ∧
    legacyWidths 100 [16, 16, 16, 16, 16, 16] = [16, 16, 16, 16, 16, 20] ∧
    claimColWidths 100 6 = [16, 16, 17, 17, 17, 17] ∧
    legacyWidths 100 [16, 16, 16, 16, 16, 16] ≠ claimColWidths 100 6 ∧
    buildCols (List.replicate 101 (Cpu.mk "c" 0)) = some (List.replicate 101 0) ∧
    (legacyWidths 100 (List.replicate 101 0)).contains 0 = true := by
  refine ⟨rfl, rfl, rfl, rfl, by decide, rfl, rfl⟩

/-- Claim C2 fails on the code: the per-cpu rendering loop of render_frame
(src lines 82-84) is commented out, so a frame for a three-core snapshot
contains only the clock widget and zero cpu cells. -/
theorem render_frame_no_cpu_cells :
    render_frame_draws [Cpu.mk "cpu0" 10, Cpu.mk "cpu1" 20, Cpu.mk "cpu2" 30]
        (Rect.mk 0 0 100 50) = [DrawCmd.Clock (Rect.mk 0 0 100 5)] ∧
    (render_frame_draws [Cpu.mk "cpu0" 10, Cpu.mk "cpu1" 20, Cpu.mk "cpu2" 30]
        (Rect.mk 0 0 100 50)).countP isCpuCell = 0 ∧
    ([Cpu.mk "cpu0" 10, Cpu.mk "cpu1" 20, Cpu.mk "cpu2" 30] : List Cpu).length = 3 := by
  refine ⟨rfl, rfl, rfl⟩

/-- Claim C4 fails on the code: handle_events calls the indefinitely blocking
event::read() with no timeout, so every non-exited iteration unconditionally
consumes one input event — even 999 ms into a 1000 ms tick — and with no
input event available the loop observes nothing and performs no further
tick redraws at all. -/
theorem blocking_read_every_iteration :
    ((App.mk "h" () [] false).runStep (StepIn.mk 999 Event.Other)).2.getLast? =
      some Action.ReadEvent ∧
    ((App.mk "h" () [] false).runStep (StepIn.mk 0 Event.Other)).2.count Action.ReadEvent = 1 ∧
    App.run (App.mk "h" () [] false) [] = (App.mk "h" () [] false, []) := by
  refine ⟨rfl, rfl, rfl⟩

/-- Claim C5 fails on the code: terminal.draw(render_frame) — and with it a
refresh_cpu_all call — runs on every loop iteration, not only at tick
boundaries: an iteration with elapsed 0 ms still refreshes and draws once,
an iteration at the 1000 ms tick refreshes and draws twice, and two
consecutive sub-tick iterations refresh twice within one tick interval. -/
theorem refresh_every_iteration :
    ((App.mk "h" () [] false).runStep (StepIn.mk 0 Event.Other)).2.count Action.Refresh = 1 ∧
    ((App.mk "h" () [] false).runStep (StepIn.mk 0 Event.Other)).2.count Action.Draw = 1 ∧
    ((App.mk "h" () [] false).runStep (StepIn.mk 1000 Event.Other)).2.count Action.Refresh = 2 ∧
    (App.run (App.mk "h" () [] false)
        [StepIn.mk 0 Event.Other, StepIn.mk 0 Event.Other]).2.count Action.Refresh = 2 := by
  refine ⟨rfl, rfl, rfl, rfl⟩

/-- Claim C6 fails on the code: render_frame hands the horizontal cpu-column
split the full frame area (frame.size()) instead of the body band
outer_layout[1], so for a 100x50 frame with 2 cores each column spans the
full height, overlaps the 5-row header band, and does not lie within the
body band. -/
theorem inner_layout_overlaps_header :
    outerLayout (Rect.mk 0 0 100 50) = (Rect.mk 0 0 100 5, Rect.mk 0 5 100 45) ∧
    innerLayout (Rect.mk 0 0 100 50) 2 = [Rect.mk 0 0 50 50, Rect.mk 50 0 50 50] ∧
    rectsOverlap (Rect.mk 0 0 50 50) (Rect.mk 0 0 100 5) ∧
    ¬ rectWithin (Rect.mk 0 0 50 50) (Rect.mk 0 5 100 45) := by
  refine ⟨rfl, rfl, by decide, by decide⟩

end SysTui

namespace SysTui

theorem rne_floor_le (x : ℚ) : ⌊x⌋ ≤ rne x := by
  unfold rne
  split_ifs <;> omega

theorem rne_le_floor_add_one (x : ℚ) : rne x ≤ ⌊x⌋ + 1 := by
  unfold rne
  split_ifs <;> omega

theorem rne_mono {x y : ℚ} (h : x ≤ y) : rne x ≤ rne y := by
  have hf : ⌊x⌋ ≤ ⌊y⌋ := Int.floor_le_floor h
  rcases lt_or_eq_of_le hf with hlt | hfe
  · have h1 := rne_le_floor_add_one x
    have h2 := rne_floor_le y
    omega
  · unfold rne
    rw [← hfe]
    have hxy : x - (⌊x⌋ : ℚ) ≤ y - (⌊x⌋ : ℚ) := by linarith
    split_ifs <;> first | omega | (exfalso; linarith)

theorem two_zpow_pos (n : ℤ) : (0 : ℚ) < 2 ^ n :=
  zpow_pos (by norm_num) n

theorem two_zpow_log_le {r : ℚ} (hr : 0 < r) : (2 : ℚ) ^ Int.log 2 r ≤ r := by
  have h := Int.zpow_log_le_self (b := 2) (by norm_num) hr
  exact_mod_cast h

theorem lt_two_zpow_succ_log (r : ℚ) : r < (2 : ℚ) ^ (Int.log 2 r + 1) := by
  have h := Int.lt_zpow_succ_log_self (b := 2) (by norm_num) r
  exact_mod_cast h

theorem f32round_nonneg (q : ℚ) : 0 ≤ f32round q := by
  unfold f32round
  split_ifs with hq
  · exact le_refl 0
  · have hq0 : 0 < q := lt_of_not_ge hq
    have hg : (0 : ℚ) < 2 ^ (Int.log 2 q - 23) := two_zpow_pos _
    have hfl : (0 : ℤ) ≤ ⌊q / 2 ^ (Int.log 2 q - 23)⌋ :=
      Int.floor_nonneg.mpr (le_of_lt (div_pos hq0 hg))
    have hrne : (0 : ℤ) ≤ rne (q / 2 ^ (Int.log 2 q - 23)) :=
      le_trans hfl (rne_floor_le _)
    exact mul_nonneg (by exact_mod_cast hrne) (le_of_lt hg)

theorem cast_pow_mul_zpow (k : ℕ) (m : ℤ) :
    ((2 ^ k : ℤ) : ℚ) * (2 : ℚ) ^ m = (2 : ℚ) ^ ((k : ℤ) + m) := by
  have hc : ((2 ^ k : ℤ) : ℚ) = (2 : ℚ) ^ (k : ℤ) := by
    push_cast
    exact (zpow_natCast 2 k).symm
  rw [hc, ← zpow_add₀ (by norm_num : (2 : ℚ) ≠ 0)]

theorem f32round_mono {p q : ℚ} (h : p ≤ q) : f32round p ≤ f32round q := by
  by_cases hp : p ≤ 0
  · unfold f32round
    rw [if_pos hp]
    split_ifs with hq
    · exact le_refl 0
    · have := f32round_nonneg q
      unfold f32round at this
      rw [if_neg hq] at this
      exact this
  · have hp0 : 0 < p := lt_of_not_ge hp
    have hq0 : 0 < q := lt_of_lt_of_le hp0 h
    have hee : Int.log 2 p ≤ Int.log 2 q := Int.log_mono_right hp0 h
    unfold f32round
    rw [if_neg (not_le.mpr hp0), if_neg (not_le.mpr hq0)]
    set e1 := Int.log 2 p with he1
    set e2 := Int.log 2 q with he2
    have hgp : (0 : ℚ) < 2 ^ (e1 - 23) := two_zpow_pos _
    have hgq : (0 : ℚ) < 2 ^ (e2 - 23) := two_zpow_pos _
    rcases eq_or_lt_of_le hee with hEq | hLt
    · rw [← hEq]
      have hdiv : p / 2 ^ (e1 - 23) ≤ q / 2 ^ (e1 - 23) :=
        (div_le_div_iff_of_pos_right hgp).mpr h
      have := rne_mono hdiv
      exact mul_le_mul_of_nonneg_right (by exact_mod_cast this) (le_of_lt hgp)
    · have hsucc : e1 + 1 ≤ e2 := hLt
      have hp_up : p < 2 ^ (e1 + 1) := lt_two_zpow_succ_log p
      have hq_lo : (2 : ℚ) ^ e2 ≤ q := two_zpow_log_le hq0
      have hA : ((2 ^ 24 : ℤ) : ℚ) * (2 : ℚ) ^ (e1 - 23) = (2 : ℚ) ^ (e1 + 1) := by
        rw [cast_pow_mul_zpow]
        congr 1
        omega
      have hB : ((2 ^ 23 : ℤ) : ℚ) * (2 : ℚ) ^ (e2 - 23) = (2 : ℚ) ^ e2 := by
        rw [cast_pow_mul_zpow]
        congr 1
        omega
      have hfl_lt : ⌊p / 2 ^ (e1 - 23)⌋ < 2 ^ 24 := by
        rw [Int.floor_lt]
        rw [div_lt_iff₀ hgp]
        calc p < 2 ^ (e1 + 1) := hp_up
        _ = ((2 ^ 24 : ℤ) : ℚ) * 2 ^ (e1 - 23) := hA.symm
      have hrne_le : rne (p / 2 ^ (e1 - 23)) ≤ 2 ^ 24 := by
        have := rne_le_floor_add_one (p / 2 ^ (e1 - 23))
        omega
      have hleft : (rne (p / 2 ^ (e1 - 23)) : ℚ) * 2 ^ (e1 - 23) ≤ 2 ^ (e1 + 1) := by
        calc (rne (p / 2 ^ (e1 - 23)) : ℚ) * 2 ^ (e1 - 23)
            ≤ ((2 ^ 24 : ℤ) : ℚ) * 2 ^ (e1 - 23) :=
              mul_le_mul_of_nonneg_right (by exact_mod_cast hrne_le) (le_of_lt hgp)
        _ = 2 ^ (e1 + 1) := hA
      have hfl_ge : (2 ^ 23 : ℤ) ≤ ⌊q / 2 ^ (e2 - 23)⌋ := by
        rw [Int.le_floor]
        rw [le_div_iff₀ hgq]
        calc ((2 ^ 23 : ℤ) : ℚ) * 2 ^ (e2 - 23) = 2 ^ e2 := hB
        _ ≤ q := hq_lo
      have hrne_ge : (2 ^ 23 : ℤ) ≤ rne (q / 2 ^ (e2 - 23)) :=
        le_trans hfl_ge (rne_floor_le _)
      have hright : (2 : ℚ) ^ e2 ≤ (rne (q / 2 ^ (e2 - 23)) : ℚ) * 2 ^ (e2 - 23) := by
        calc (2 : ℚ) ^ e2 = ((2 ^ 23 : ℤ) : ℚ) * 2 ^ (e2 - 23) := hB.symm
        _ ≤ (rne (q / 2 ^ (e2 - 23)) : ℚ) * 2 ^ (e2 - 23) :=
              mul_le_mul_of_nonneg_right (by exact_mod_cast hrne_ge) (le_of_lt hgq)
      calc (rne (p / 2 ^ (e1 - 23)) : ℚ) * 2 ^ (e1 - 23)
          ≤ 2 ^ (e1 + 1) := hleft
      _ ≤ 2 ^ e2 := zpow_le_zpow_right₀ (by norm_num) hsucc
      _ ≤ (rne (q / 2 ^ (e2 - 23)) : ℚ) * 2 ^ (e2 - 23) := hright

/-- Claim C7: to_gigabytes is monotone, so the `used ≤ total` ordering of the
byte counts is preserved through the f32 unit conversion; binary32 rounding
(of the u64-to-f32 cast and of each division by 1024) never flips the
order. -/
theorem to_gigabytes_mono (u t : ℕ) (h : u ≤ t) : to_gigabytes u ≤ to_gigabytes t := by
  unfold to_gigabytes
  have h0 : ((u : ℚ)) ≤ (t : ℚ) := by exact_mod_cast h
  have h1 := f32round_mono h0
  have h2 := f32round_mono ((div_le_div_iff_of_pos_right (by norm_num : (0:ℚ) < 1024)).mpr h1)
  have h3 := f32round_mono ((div_le_div_iff_of_pos_right (by norm_num : (0:ℚ) < 1024)).mpr h2)
  exact f32round_mono ((div_le_div_iff_of_pos_right (by norm_num : (0:ℚ) < 1024)).mpr h3)

theorem to_gigabytes_mono_witness : to_gigabytes 4 ≤ to_gigabytes 8 :=
  to_gigabytes_mono 4 8 (by decide)

end SysTui
